import Mathlib

/-!
# Verification of `evolve_text.py`

A shallow embedding of the evolutionary-text-search program `evolve_text.py`
and proofs about it.  Strings are embedded as `List Char`.  The numpy matrix
used by `edit_distance` is embedded as a total function `Nat → Nat → Nat`
initialised to zero (numpy `zeros`), and the Python `for` loops that fill it
are embedded as left folds over `List.range'` (Python `range(1, n)` is
`List.range' 1 (n - 1)`).  Fallible operations (numpy index errors, Python
`random.randint(0, -1)` raising `ValueError`) are embedded with `Option`:
`none` is an uncaught exception.  Probabilities and the results of
`random.random()` are embedded as rationals; the random draws consumed by
`mutate_text` are passed explicitly as data.
-/

namespace EvolveText

/-- `string.ascii_uppercase` from the Python standard library. -/
def ascii_uppercase : List Char := "ABCDEFGHIJKLMNOPQRSTUVWXYZ".toList

/-- `VALID_CHARS = string.ascii_uppercase + " "` (line 28 of the source). -/
def VALID_CHARS : List Char := ascii_uppercase ++ " ".toList

/-! ## The numpy matrix used by `edit_distance`

`d = zeros((len_1, len_2))` is the constant-zero function; `d[i, j] = v` is a
pointwise functional update.  All values stored are non-negative integers, so
the matrix entries are embedded as `Nat`. -/

/-- The assignment `d[i, j] = v` on the embedded matrix. -/
def mat_upd (d : Nat → Nat → Nat) (i j v : Nat) : Nat → Nat → Nat :=
  fun i' j' => if i' = i ∧ j' = j then v else d i' j'

/-- The loop `for i in range(1, len_1): d[i, 0] = i` (lines 145-146). -/
def init_rows (len_1 : Nat) (d : Nat → Nat → Nat) : Nat → Nat → Nat :=
  (List.range' 1 (len_1 - 1)).foldl (fun d i => mat_upd d i 0 i) d

/-- The loop `for j in range(1, len_2): d[0, j] = j` (lines 149-150). -/
def init_cols (len_2 : Nat) (d : Nat → Nat → Nat) : Nat → Nat → Nat :=
  (List.range' 1 (len_2 - 1)).foldl (fun d j => mat_upd d 0 j j) d

/-- The body of the doubly nested loop of `edit_distance` (lines 155-163):
fill cell `(i, j)` from the cells `(i-1, j-1)`, `(i-1, j)` and `(i, j-1)`. -/
def fill_cell (string_1 string_2 : List Char) (d : Nat → Nat → Nat)
    (j i : Nat) : Nat → Nat → Nat :=
  if string_1.getD (i - 1) ' ' = string_2.getD (j - 1) ' ' then
    mat_upd d i j (d (i - 1) (j - 1))
  else
    let deletion := d (i - 1) j + 1
    let insertion := d i (j - 1) + 1
    let substitution := d (i - 1) (j - 1) + 1
    mat_upd d i j (min (min deletion insertion) substitution)

/-- The inner loop `for i in range(1, len_1)` of `edit_distance` (line 154). -/
def fill_col (string_1 string_2 : List Char) (len_1 : Nat)
    (d : Nat → Nat → Nat) (j : Nat) : Nat → Nat → Nat :=
  (List.range' 1 (len_1 - 1)).foldl (fun d i => fill_cell string_1 string_2 d j i) d

/-- The outer loop `for j in range(1, len_2)` of `edit_distance` (line 153). -/
def fill_table (string_1 string_2 : List Char) (len_1 len_2 : Nat)
    (d : Nat → Nat → Nat) : Nat → Nat → Nat :=
  (List.range' 1 (len_2 - 1)).foldl (fun d j => fill_col string_1 string_2 len_1 d j) d

/-- `edit_distance(string_1, string_2)` (lines 128-164 of the source).

The numpy matrix is `zeros((len_1, len_2))` — note: NOT `(len_1+1, len_2+1)` —
and the returned entry is `d[len_1-1, len_2-1]`.  When one of the strings is
empty, the corresponding matrix axis has size `0` and the Python index `-1`
raises `IndexError`; that exception is embedded as `none`. -/
def edit_distance (string_1 string_2 : List Char) : Option Nat :=
  let len_1 := string_1.length
  let len_2 := string_2.length
  let d := fill_table string_1 string_2 len_1 len_2
    (init_cols len_2 (init_rows len_1 (fun _ _ => 0)))
  if len_1 = 0 ∨ len_2 = 0 then none
  else some (d (len_1 - 1) (len_2 - 1))

/-- `levenshtein_distance(string_1, len_1, string_2, len_2)` (lines 96-125 of
the source): the plain recursive Levenshtein distance.  `string_1[len_1 - 1]`
is embedded with `List.getD`; the intended calls always index in bounds. -/
def levenshtein_distance (string_1 : List Char) (len_1 : Nat)
    (string_2 : List Char) (len_2 : Nat) : Nat :=
  if len_1 = 0 then len_2
  else if len_2 = 0 then len_1
  else
    let dist := if string_1.getD (len_1 - 1) ' ' = string_2.getD (len_2 - 1) ' ' then 0 else 1
    let reduce_1 := levenshtein_distance string_1 (len_1 - 1) string_2 len_2 + 1
    let reduce_2 := levenshtein_distance string_1 len_1 string_2 (len_2 - 1) + 1
    let reduce_both := levenshtein_distance string_1 (len_1 - 1) string_2 (len_2 - 1) + dist
    min (min reduce_1 reduce_2) reduce_both
termination_by (len_1, len_2)
decreasing_by
  all_goals omega

/-- The classic dynamic-programming edit-distance table described by the
specification: `d[i][0] = i`, `d[0][j] = j`, and for `i, j ≥ 1`
`d[i][j] = d[i-1][j-1]` if `a[i-1] == b[j-1]` else
`1 + min(d[i-1][j], d[i][j-1], d[i-1][j-1])`.  The specified value of
`distance(a, b)` is the entry `dp_spec a b a.length b.length`. -/
def dp_spec (a b : List Char) (i j : Nat) : Nat :=
  if i = 0 then j
  else if j = 0 then i
  else if a.getD (i - 1) ' ' = b.getD (j - 1) ' ' then dp_spec a b (i - 1) (j - 1)
  else
    min (min (dp_spec a b (i - 1) j + 1) (dp_spec a b i (j - 1) + 1))
      (dp_spec a b (i - 1) (j - 1) + 1)
termination_by (i, j)
decreasing_by
  all_goals omega

/-- The edit distance the specification ascribes to `edit_distance`:
the DP-table entry `d[|a|][|b|]`. -/
def spec_distance (a b : List Char) : Nat :=
  dp_spec a b a.length b.length

/-! ## The DP recurrence, unfolded -/

theorem dp_spec_zero_left (a b : List Char) (j : Nat) : dp_spec a b 0 j = j := by
  rw [dp_spec]
  simp

theorem dp_spec_left_zero (a b : List Char) (i : Nat) : dp_spec a b i 0 = i := by
  rw [dp_spec]
  by_cases h : i = 0 <;> simp [h]

theorem dp_spec_rec (a b : List Char) (i j : Nat) (hi : 1 ≤ i) (hj : 1 ≤ j) :
    dp_spec a b i j =
      if a.getD (i - 1) ' ' = b.getD (j - 1) ' ' then dp_spec a b (i - 1) (j - 1)
      else
        min (min (dp_spec a b (i - 1) j + 1) (dp_spec a b i (j - 1) + 1))
          (dp_spec a b (i - 1) (j - 1) + 1) := by
  rw [dp_spec]
  rw [if_neg (by omega), if_neg (by omega)]

/-! ## The loops of `edit_distance` compute the DP table -/

theorem mat_upd_apply (d : Nat → Nat → Nat) (i j v i' j' : Nat) :
    mat_upd d i j v i' j' = if i' = i ∧ j' = j then v else d i' j' := rfl

theorem init_rows_foldl (k : Nat) :
    ∀ (s : Nat) (d : Nat → Nat → Nat) (i j : Nat),
      ((List.range' s k).foldl (fun d i => mat_upd d i 0 i) d) i j =
        if j = 0 ∧ s ≤ i ∧ i < s + k then i else d i j := by
  induction k with
  | zero =>
    intro s d i j
    rw [if_neg (by omega)]
    rfl
  | succ k ih =>
    intro s d i j
    rw [List.range'_succ, List.foldl_cons, ih (s + 1) (mat_upd d s 0 s) i j]
    simp only [mat_upd]
    split_ifs with h1 h2 h3 <;> first | rfl | omega

theorem init_cols_foldl (k : Nat) :
    ∀ (s : Nat) (d : Nat → Nat → Nat) (i j : Nat),
      ((List.range' s k).foldl (fun d j => mat_upd d 0 j j) d) i j =
        if i = 0 ∧ s ≤ j ∧ j < s + k then j else d i j := by
  induction k with
  | zero =>
    intro s d i j
    rw [if_neg (by omega)]
    rfl
  | succ k ih =>
    intro s d i j
    rw [List.range'_succ, List.foldl_cons, ih (s + 1) (mat_upd d 0 s s) i j]
    simp only [mat_upd]
    split_ifs with h1 h2 h3 <;> first | rfl | omega

theorem fill_cell_spec (string_1 string_2 : List Char) (j s : Nat)
    (hj : 1 ≤ j) (hs : 1 ≤ s) (d : Nat → Nat → Nat)
    (hcol : ∀ i', i' < s → d i' j = dp_spec string_1 string_2 i' j)
    (hprev : ∀ i', i' ≤ s → d i' (j - 1) = dp_spec string_1 string_2 i' (j - 1)) :
    ∀ i' j', fill_cell string_1 string_2 d j s i' j' =
      if i' = s ∧ j' = j then dp_spec string_1 string_2 s j else d i' j' := by
  have hv : dp_spec string_1 string_2 s j =
      if string_1.getD (s - 1) ' ' = string_2.getD (j - 1) ' ' then d (s - 1) (j - 1)
      else
        min (min (d (s - 1) j + 1) (d s (j - 1) + 1)) (d (s - 1) (j - 1) + 1) := by
    rw [hcol (s - 1) (by omega), hprev (s - 1) (by omega), hprev s le_rfl,
      dp_spec_rec string_1 string_2 s j hs hj]
  intro i' j'
  rw [hv]
  simp only [fill_cell, ite_apply, mat_upd_apply]
  split_ifs <;> rfl

theorem fill_col_foldl (string_1 string_2 : List Char) (j : Nat) (hj : 1 ≤ j) :
    ∀ (k s : Nat) (d : Nat → Nat → Nat), 1 ≤ s →
      (∀ i', i' < s → d i' j = dp_spec string_1 string_2 i' j) →
      (∀ i', i' < s + k → d i' (j - 1) = dp_spec string_1 string_2 i' (j - 1)) →
      ∀ i' j',
        ((List.range' s k).foldl (fun d i => fill_cell string_1 string_2 d j i) d) i' j' =
          if j' = j ∧ s ≤ i' ∧ i' < s + k then dp_spec string_1 string_2 i' j'
          else d i' j' := by
  intro k
  induction k with
  | zero =>
    intro s d _ _ _ i' j'
    rw [if_neg (by omega)]
    rfl
  | succ k ih =>
    intro s d hs hcol hprev i' j'
    have hd1 := fill_cell_spec string_1 string_2 j s hj hs d hcol
      (fun i' hi' => hprev i' (by omega))
    rw [List.range'_succ, List.foldl_cons,
      ih (s + 1) (fill_cell string_1 string_2 d j s) (by omega)
        (by
          intro i' hi'
          rw [hd1 i' j]
          by_cases he : i' = s
          · rw [if_pos ⟨he, rfl⟩, he]
          · rw [if_neg (by tauto)]
            exact hcol i' (by omega))
        (by
          intro i' hi'
          rw [hd1 i' (j - 1), if_neg (by omega)]
          exact hprev i' (by omega))
        i' j']
    rw [hd1 i' j']
    split_ifs with h1 h2 h3 <;>
      first
        | rfl
        | omega
        | (exfalso; omega)
        | (obtain ⟨he, hje⟩ := h3
           subst he
           subst hje
           rfl)

theorem fill_table_foldl (string_1 string_2 : List Char) (n1 : Nat) (hn1 : 1 ≤ n1) :
    ∀ (k t : Nat) (d : Nat → Nat → Nat), 1 ≤ t →
      (∀ j' i', j' < t → i' < n1 → d i' j' = dp_spec string_1 string_2 i' j') →
      (∀ j', t ≤ j' → j' < t + k → d 0 j' = dp_spec string_1 string_2 0 j') →
      ∀ i' j',
        ((List.range' t k).foldl (fun d j => fill_col string_1 string_2 n1 d j) d) i' j' =
          if t ≤ j' ∧ j' < t + k ∧ 1 ≤ i' ∧ i' < n1 then dp_spec string_1 string_2 i' j'
          else d i' j' := by
  intro k
  induction k with
  | zero =>
    intro t d _ _ _ i' j'
    rw [if_neg (by omega)]
    rfl
  | succ k ih =>
    intro t d ht hdone htop i' j'
    have hone : 1 + (n1 - 1) = n1 := by omega
    have hd1 : ∀ i' j', fill_col string_1 string_2 n1 d t i' j' =
        if j' = t ∧ 1 ≤ i' ∧ i' < n1 then dp_spec string_1 string_2 i' j'
        else d i' j' := by
      intro i' j'
      rw [show fill_col string_1 string_2 n1 d t i' j' =
          ((List.range' 1 (n1 - 1)).foldl
            (fun d i => fill_cell string_1 string_2 d t i) d) i' j' from rfl,
        fill_col_foldl string_1 string_2 t ht (n1 - 1) 1 d le_rfl
          (by
            intro i' hi'
            have : i' = 0 := by omega
            rw [this]
            exact htop t le_rfl (by omega))
          (by
            intro i' hi'
            exact hdone (t - 1) i' (by omega) (by omega))
          i' j', hone]
    rw [List.range'_succ, List.foldl_cons,
      ih (t + 1) (fill_col string_1 string_2 n1 d t) (by omega)
        (by
          intro j' i' hj' hi'
          rw [hd1 i' j']
          by_cases he : j' = t
          · by_cases hi0 : 1 ≤ i'
            · rw [if_pos ⟨he, hi0, hi'⟩]
            · rw [if_neg (by tauto), he]
              have : i' = 0 := by omega
              rw [this]
              exact htop t le_rfl (by omega)
          · rw [if_neg (by tauto)]
            exact hdone j' i' (by omega) hi')
        (by
          intro j' hj1 hj2
          rw [hd1 0 j', if_neg (by omega)]
          exact htop j' (by omega) (by omega))
        i' j']
    rw [hd1 i' j']
    split_ifs with h1 h2 h3 <;> first | rfl | omega

/-- What `edit_distance` actually returns on non-empty inputs: the DP-table
entry at `(|a| - 1, |b| - 1)`, i.e. the classic edit distance of the two
strings with their final symbols removed — not the entry at `(|a|, |b|)`. -/
theorem edit_distance_eq_dp (string_1 string_2 : List Char)
    (h1 : string_1.length ≠ 0) (h2 : string_2.length ≠ 0) :
    edit_distance string_1 string_2 =
      some (dp_spec string_1 string_2 (string_1.length - 1) (string_2.length - 1)) := by
  have hbase : ∀ i j, init_cols string_2.length
      (init_rows string_1.length (fun _ _ => 0)) i j =
      if i = 0 ∧ 1 ≤ j ∧ j < string_2.length then j
      else if j = 0 ∧ 1 ≤ i ∧ i < string_1.length then i
      else 0 := by
    intro i j
    rw [init_cols, init_cols_foldl (string_2.length - 1) 1
      (init_rows string_1.length (fun _ _ => 0)) i j]
    rw [init_rows, init_rows_foldl (string_1.length - 1) 1 (fun _ _ => 0) i j]
    have e2 : 1 + (string_2.length - 1) = string_2.length := by omega
    have e1 : 1 + (string_1.length - 1) = string_1.length := by omega
    rw [e1, e2]
  simp only [edit_distance]
  rw [if_neg (by omega)]
  rw [fill_table, fill_table_foldl string_1 string_2 string_1.length (by omega)
    (string_2.length - 1) 1 _ le_rfl
    (by
      intro j' i' hj' hi'
      have hj0 : j' = 0 := by omega
      rw [hbase i' j', hj0, if_neg (by omega), dp_spec_left_zero]
      by_cases hi0 : i' = 0
      · rw [if_neg (by omega), hi0]
      · rw [if_pos ⟨by omega, by omega, hi'⟩])
    (by
      intro j' hj1 hj2
      rw [hbase 0 j', if_pos ⟨rfl, by omega, by omega⟩, dp_spec_zero_left])
    (string_1.length - 1) (string_2.length - 1)]
  have e2 : 1 + (string_2.length - 1) = string_2.length := by omega
  rw [e2]
  split_ifs with h
  · rfl
  · rw [hbase]
    by_cases hb2 : string_2.length = 1
    · rw [hb2]
      simp only [Nat.sub_self]
      rw [if_neg (by omega)]
      by_cases hb1 : string_1.length = 1
      · rw [if_neg (by omega), hb1]
        simp only [Nat.sub_self]
        rw [dp_spec_left_zero]
      · rw [if_pos ⟨by trivial, by omega, by omega⟩, dp_spec_left_zero]
    · have hb1 : string_1.length = 1 := by omega
      rw [hb1]
      simp only [Nat.sub_self]
      rw [if_pos ⟨by trivial, by omega, by omega⟩, dp_spec_zero_left]

/-- `edit_distance` raises (returns `none`) exactly when one of its arguments
is empty. -/
theorem edit_distance_none_iff (a b : List Char) :
    edit_distance a b = none ↔ a.length = 0 ∨ b.length = 0 := by
  by_cases h : a.length = 0 ∨ b.length = 0
  · simp only [edit_distance, if_pos h]
    exact iff_of_true (by trivial) h
  · simp only [edit_distance, if_neg h]
    exact iff_of_false (by simp) h

/-! ## Symmetry of the DP table -/

theorem dp_spec_symm_aux (a b : List Char) :
    ∀ n i j, i + j ≤ n → dp_spec a b i j = dp_spec b a j i := by
  intro n
  induction n with
  | zero =>
    intro i j h
    have hi : i = 0 := by omega
    have hj : j = 0 := by omega
    rw [hi, hj, dp_spec_zero_left, dp_spec_zero_left]
  | succ n ih =>
    intro i j h
    rcases Nat.eq_zero_or_pos i with hi | hi
    · rw [hi, dp_spec_zero_left, dp_spec_left_zero]
    rcases Nat.eq_zero_or_pos j with hj | hj
    · rw [hj, dp_spec_zero_left, dp_spec_left_zero]
    rw [dp_spec_rec a b i j hi hj, dp_spec_rec b a j i hj hi,
      ih (i - 1) (j - 1) (by omega), ih (i - 1) j (by omega), ih i (j - 1) (by omega)]
    by_cases hc : a.getD (i - 1) ' ' = b.getD (j - 1) ' '
    · rw [if_pos hc, if_pos hc.symm]
    · rw [if_neg hc, if_neg (fun hh => hc hh.symm),
        min_comm (dp_spec b a j (i - 1) + 1) (dp_spec b a (j - 1) i + 1)]

/-! ## `evaluate_text` -/

/-- The `Message` individual (lines 46-87): a mutable list of characters.
The DEAP fitness machinery is irrelevant to the claims about `evaluate_text`
and `mutate_text`, which only read and write the character list, so a
`Message` is embedded as its character list together with its
fitness-values slot. -/
structure Message where
  chars : List Char
  fitness_values : Option Nat
deriving DecidableEq

/-- `Message.get_text` (lines 85-87): `"".join(self)`. -/
def get_text (message : Message) : List Char :=
  message.chars

/-- `evaluate_text(message, goal_text, verbose)` (lines 167-178).

Returns `none` when `edit_distance` raises.  On success the result records
the length-1 fitness tuple `(distance,)` that the function returns, the
individual as it is left by the call, and the list of lines printed
(`(text, distance)` records; line 177 prints only when `verbose`). -/
def evaluate_text (message : Message) (goal_text : List Char) (verbose : Bool) :
    Option (Nat × Message × List (List Char × Nat)) :=
  (edit_distance (get_text message) goal_text).map fun distance =>
    (distance, message, if verbose then [(get_text message, distance)] else [])

/-! ## `mutate_text`

`random.random()` draws are embedded as rationals in `[0, 1)`;
`random.randint(a, b)` draws are embedded as the drawn integer together with
the predicate `randint_ok` recording the bounds of the call site
(`random.randint(a, b)` returns `N` with `a ≤ N ≤ b`, and raises
`ValueError` when `b < a` — for these call sites, exactly when the message
is empty). -/

/-- The set of outcomes of `random.randint(a, b)`: `a ≤ N ≤ b`. -/
def randint_ok (a b : Int) (n : Int) : Bool :=
  a ≤ n && n ≤ b

/-- The random draws consumed by one call of `mutate_text`, in program
order: the three `random.random()` results gating the three mutation types,
and the `randint` / `choice` results used inside each branch. -/
structure MutationDraws where
  r_ins : Rat
  i_ins : Nat
  char_ins : Char
  r_del : Rat
  i_del : Nat
  r_sub : Rat
  i_sub : Nat
  char_sub : Char

/-- The insertion branch of `mutate_text` (lines 193-197):
`if random.random() < prob_ins: i = random.randint(0, len(message)-1);
message.insert(i, char)`.  On an empty message `randint(0, -1)` raises. -/
def mutate_ins (prob_ins : Rat) (r : Rat) (i : Nat) (char : Char)
    (message : List Char) : Option (List Char) :=
  if r < prob_ins then
    if message.length = 0 then none
    else some (message.insertIdx i char)
  else some message

/-- The deletion branch of `mutate_text` (lines 198-201):
`if random.random() < prob_del: i = random.randint(0, len(message)-1);
message.pop(i)`.  There is no guard on the current length. -/
def mutate_del (prob_del : Rat) (r : Rat) (i : Nat)
    (message : List Char) : Option (List Char) :=
  if r < prob_del then
    if message.length = 0 then none
    else some (message.eraseIdx i)
  else some message

/-- The substitution branch of `mutate_text` (lines 202-206):
`if random.random() < prob_sub: i = random.randint(0, len(message)-1);
message[i] = char`. -/
def mutate_sub (prob_sub : Rat) (r : Rat) (i : Nat) (char : Char)
    (message : List Char) : Option (List Char) :=
  if r < prob_sub then
    if message.length = 0 then none
    else some (message.set i char)
  else some message

/-- `mutate_text(message, prob_ins, prob_del, prob_sub)` (lines 181-208);
the source defaults are `prob_ins = prob_del = prob_sub = 0.05`.  The three
mutation branches run in order on the evolving message. -/
def mutate_text (message : List Char) (prob_ins prob_del prob_sub : Rat)
    (draws : MutationDraws) : Option (List Char) :=
  (mutate_ins prob_ins draws.r_ins draws.i_ins draws.char_ins message).bind fun m1 =>
    (mutate_del prob_del draws.r_del draws.i_del m1).bind fun m2 =>
      mutate_sub prob_sub draws.r_sub draws.i_sub draws.char_sub m2

/-! ## The command-line entry point (lines 273-294) -/

/-- Outcome of running `__main__` on a given goal string: either the
`ValueError` raised by the validation loop (carrying the goal, the offending
character and the valid set, as interpolated into the message on lines
289-291), or the search `evolve_string(goal)` (line 294). -/
inductive MainResult where
  | error (goal : List Char) (char : Char) (valid : List Char) : MainResult
  | search (goal : List Char) : MainResult
deriving DecidableEq

/-- The validation loop (lines 287-291): scan `goal` left to right and raise
on the first character outside `VALID_CHARS`. -/
def first_illegal_char : List Char → Option Char
  | [] => none
  | char :: rest =>
      if char ∈ VALID_CHARS then first_illegal_char rest else some char

/-- `__main__` after the goal string has been determined (lines 285-294):
validate every character, raising `ValueError` on the first violation;
only if no character is rejected, run the search. -/
def main_run (goal : List Char) : MainResult :=
  match first_illegal_char goal with
  | some char => MainResult.error goal char VALID_CHARS
  | none => MainResult.search goal

/-! ## Facts about the validation loop -/

theorem first_illegal_char_none_iff (goal : List Char) :
    first_illegal_char goal = none ↔ ∀ c ∈ goal, c ∈ VALID_CHARS := by
  induction goal with
  | nil => simp [first_illegal_char]
  | cons c rest ih =>
    by_cases hc : c ∈ VALID_CHARS <;> simp [first_illegal_char, hc, ih]

theorem first_illegal_char_some (goal : List Char) (c : Char)
    (h : first_illegal_char goal = some c) :
    c ∉ VALID_CHARS ∧
      ∃ pre post, goal = pre ++ c :: post ∧ ∀ x ∈ pre, x ∈ VALID_CHARS := by
  induction goal with
  | nil => simp [first_illegal_char] at h
  | cons ch rest ih =>
    rw [first_illegal_char] at h
    by_cases hc : ch ∈ VALID_CHARS
    · rw [if_pos hc] at h
      obtain ⟨hnot, pre, post, heq, hpre⟩ := ih h
      refine ⟨hnot, ch :: pre, post, by rw [heq, List.cons_append], ?_⟩
      intro x hx
      rcases List.mem_cons.mp hx with hx | hx
      · rw [hx]
        exact hc
      · exact hpre x hx
    · rw [if_neg hc] at h
      obtain rfl : ch = c := Option.some.inj h
      refine ⟨hc, [], rest, rfl, ?_⟩
      intro x hx
      simp at hx

/-! ## The claims -/

/-- C1.  The claim says `edit_distance(a, b)` equals the classic DP edit
distance `d[|a|][|b|]`.  It does not: on `a = "AB"`, `b = "BA"` the code
returns `1` while the classic DP table (embedded as `spec_distance`,
following the specification) gives `2` — the code allocates a
`|a| × |b|` table and returns `d[|a|-1][|b|-1]`, the edit distance of the
two strings with their last symbols dropped. -/
theorem c1_edit_distance_differs_from_spec_dp :
    edit_distance "AB".toList "BA".toList = some 1 ∧
    spec_distance "AB".toList "BA".toList = 2 := by
  constructor
  · decide
  · simp [spec_distance, dp_spec]

/-- C2.  The claim says `edit_distance(a, b) = 0` iff `a = b`.  The code
violates it: `"XA" ≠ "XB"` yet `edit_distance` returns `0` (it compares the
strings with their last symbols dropped), and on the pair of empty strings
it raises instead of returning `0`. -/
theorem c2_zero_for_different_strings :
    edit_distance "XA".toList "XB".toList = some 0 ∧
    ("XA".toList == "XB".toList) = false ∧
    edit_distance ([] : List Char) ([] : List Char) = none := by
  decide

/-- C4.  The claim says `edit_distance` is total, including on empty
strings.  The code raises `IndexError` (embedded as `none`) whenever one
argument is empty: the `len_1 × len_2` numpy table has a size-0 axis and
the index `-1` is out of bounds. -/
theorem c4_empty_inputs_raise :
    edit_distance ([] : List Char) "A".toList = none ∧
    edit_distance "A".toList ([] : List Char) = none ∧
    edit_distance ([] : List Char) ([] : List Char) = none := by
  decide

/-- C5.  The claim says `levenshtein_distance(a, |a|, b, |b|)` and
`edit_distance(a, b)` agree for every pair of strings.  They do not: on
`a = "AB"`, `b = "BA"` the recursive implementation returns `2` and the
dynamic-programming implementation returns `1`. -/
theorem c5_levenshtein_disagrees_with_edit_distance :
    levenshtein_distance "AB".toList 2 "BA".toList 2 = 2 ∧
    edit_distance "AB".toList "BA".toList = some 1 := by
  constructor
  · simp [levenshtein_distance]
  · decide

/-- C9.  The four documented values of `edit_distance` hold as stated
(each pair is non-empty, so no index error occurs, and each value happens
to coincide with the true edit distance). -/
theorem c9_doctest_values :
    edit_distance "HELLO".toList "HELLO".toList = some 0 ∧
    edit_distance "CATCH".toList "MATCH".toList = some 1 ∧
    edit_distance "CATCH-22".toList "MATCH".toList = some 4 ∧
    edit_distance "KITTEN".toList "SITTING".toList = some 3 := by
  decide

/-- C8.  `edit_distance` is symmetric: on a pair with an empty string both
orders raise (`none`), and on non-empty strings both orders return the
DP-table value, which is symmetric. -/
theorem c8_edit_distance_symm (a b : List Char) :
    edit_distance a b = edit_distance b a := by
  rcases Nat.eq_zero_or_pos a.length with ha | ha
  · rw [(edit_distance_none_iff a b).mpr (Or.inl ha),
      (edit_distance_none_iff b a).mpr (Or.inr ha)]
  rcases Nat.eq_zero_or_pos b.length with hb | hb
  · rw [(edit_distance_none_iff a b).mpr (Or.inr hb),
      (edit_distance_none_iff b a).mpr (Or.inl hb)]
  rw [edit_distance_eq_dp a b (by omega) (by omega),
    edit_distance_eq_dp b a (by omega) (by omega),
    dp_spec_symm_aux a b ((a.length - 1) + (b.length - 1)) _ _ le_rfl]

/-- C7.  With verbose logging disabled, `evaluate_text` returns exactly the
value of the program's distance function on the individual's text and the
goal as the fitness result, leaves the individual unchanged, and prints
nothing; it fails exactly when the distance function raises, i.e. when the
individual's text or the goal is empty. -/
theorem c7_evaluate_text_frame (message : Message) (goal_text : List Char) :
    evaluate_text message goal_text false =
      (edit_distance (get_text message) goal_text).map
        (fun distance => (distance, message, ([] : List (List Char × Nat)))) ∧
    ∀ verbose, (evaluate_text message goal_text verbose = none ↔
      (get_text message).length = 0 ∨ goal_text.length = 0) := by
  constructor
  · simp [evaluate_text]
  · intro verbose
    simp [evaluate_text, edit_distance_none_iff]

/-- C10.  The command-line entry point performs the search if and only if
every character of the goal lies in `VALID_CHARS`; otherwise it raises a
`ValueError` carrying the first offending character and the full valid
alphabet, and no search is performed. -/
theorem c10_goal_validation (goal : List Char) :
    (main_run goal = MainResult.search goal ↔ ∀ c ∈ goal, c ∈ VALID_CHARS) ∧
    ((∃ c ∈ goal, c ∉ VALID_CHARS) ↔
      ∃ c, main_run goal = MainResult.error goal c VALID_CHARS) ∧
    ∀ c, main_run goal = MainResult.error goal c VALID_CHARS →
      c ∉ VALID_CHARS ∧
      ∃ pre post, goal = pre ++ c :: post ∧ ∀ x ∈ pre, x ∈ VALID_CHARS := by
  rcases h : first_illegal_char goal with _ | c
  · have hall : ∀ c ∈ goal, c ∈ VALID_CHARS := (first_illegal_char_none_iff goal).mp h
    refine ⟨iff_of_true (by rw [main_run, h]) hall, ?_, ?_⟩
    · constructor
      · rintro ⟨c, hcg, hcv⟩
        exact absurd (hall c hcg) hcv
      · rintro ⟨c, hc⟩
        rw [main_run, h] at hc
        exact absurd hc (by simp)
    · intro c hc
      rw [main_run, h] at hc
      exact absurd hc (by simp)
  · obtain ⟨hnot, pre, post, heq, hpre⟩ := first_illegal_char_some goal c h
    have hrun : main_run goal = MainResult.error goal c VALID_CHARS := by
      rw [main_run, h]
    refine ⟨iff_of_false (by rw [hrun]; simp) ?_, ?_, ?_⟩
    · intro hall
      exact hnot (hall c (by rw [heq]; simp))
    · exact iff_of_true ⟨c, by rw [heq]; simp, hnot⟩ ⟨c, hrun⟩
    · intro c' hc'
      rw [hrun] at hc'
      obtain rfl : c = c' := by
        simp only [MainResult.error.injEq] at hc'
        exact hc'.2.1
      exact ⟨hnot, pre, post, heq, hpre⟩

/-- C10, witness: the default goal `"SKYNET IS NOW ONLINE"` is fully valid,
so the entry point proceeds to the search. -/
theorem c10_goal_validation_witness :
    main_run "SKYNET IS NOW ONLINE".toList =
      MainResult.search "SKYNET IS NOW ONLINE".toList :=
  (c10_goal_validation "SKYNET IS NOW ONLINE".toList).1.mpr (by decide)

/-- C3, counterexample.  The claim says the deletion mutation fires only
when the current length is strictly greater than `1`, so no length-0
message can be produced.  The code has no such guard: on the length-1
message `['A']` with `prob_del = 1` (and draws on which the other two
mutation types do not fire), `mutate_text` returns the empty message.  The
second conjunct records that the deletion index `0` is a legitimate
outcome of the call `random.randint(0, len(message) - 1)`. -/
theorem c3_counterexample_length_one_deleted :
    mutate_text ['A'] 0 1 0 ⟨0, 0, 'A', 0, 0, 0, 0, 'A'⟩ = some [] ∧
    randint_ok 0 (((['A'] : List Char).length : Int) - 1) 0 = true := by
  decide

/-- C3, amended.  `mutate_text` preserves the length ≥ 1 invariant only
from length ≥ 2: a message of length at least `2` always mutates (no
branch raises) to a message of length at least `1`, for every choice of
probabilities and draws.  (On length-1 messages the unguarded deletion can
empty the message, as the counterexample shows.) -/
theorem c3_amended_length_two_preserves_nonempty (message : List Char)
    (h : 2 ≤ message.length) (prob_ins prob_del prob_sub : Rat)
    (draws : MutationDraws) :
    ∃ result, mutate_text message prob_ins prob_del prob_sub draws = some result ∧
      1 ≤ result.length := by
  obtain ⟨m1, hm1, hlen1⟩ : ∃ m1,
      mutate_ins prob_ins draws.r_ins draws.i_ins draws.char_ins message = some m1 ∧
        2 ≤ m1.length := by
    rw [mutate_ins]
    split_ifs with hr he
    · exact absurd he (by omega)
    · exact ⟨_, rfl, le_trans h (List.length_le_length_insertIdx _ _ _)⟩
    · exact ⟨message, rfl, h⟩
  obtain ⟨m2, hm2, hlen2⟩ : ∃ m2,
      mutate_del prob_del draws.r_del draws.i_del m1 = some m2 ∧ 1 ≤ m2.length := by
    rw [mutate_del]
    split_ifs with hr he
    · exact absurd he (by omega)
    · refine ⟨_, rfl, ?_⟩
      rw [List.length_eraseIdx]
      split_ifs <;> omega
    · exact ⟨m1, rfl, by omega⟩
  rw [mutate_text, hm1, Option.some_bind, hm2, Option.some_bind, mutate_sub]
  split_ifs with hr he
  · exact absurd he (by omega)
  · exact ⟨_, rfl, by rw [List.length_set]; omega⟩
  · exact ⟨m2, rfl, hlen2⟩

/-- C3, amended, witness: a length-2 message with `prob_del = 1`. -/
theorem c3_amended_witness :
    ∃ result, mutate_text ['A', 'B'] 0 1 0 ⟨0, 0, 'A', 0, 0, 0, 0, 'A'⟩ =
      some result ∧ 1 ≤ result.length :=
  c3_amended_length_two_preserves_nonempty ['A', 'B'] (by decide) 0 1 0
    ⟨0, 0, 'A', 0, 0, 0, 0, 'A'⟩

/-- C6, counterexample.  The claim says the insertion position is drawn
uniformly from `[0, L]` inclusive, so that the new symbol can be appended
after the last position.  The insertion branch calls
`random.randint(0, len(message) - 1)`: on `"HELLO"` (length `5`) the
position `5` — the append position — is not a possible outcome, while `4`
is the largest possible one. -/
theorem c6_counterexample_no_append_position :
    randint_ok 0 (("HELLO".toList.length : Int) - 1) ("HELLO".toList.length : Int) = false ∧
    randint_ok 0 (("HELLO".toList.length : Int) - 1) 4 = true ∧
    "HELLO".toList.length = 5 := by
  decide

/-- C6, amended.  When insertion fires on a message of length `L ≥ 1`, the
position is drawn uniformly from `[0, L-1]` (the outcomes of
`random.randint(0, len(message) - 1)` are exactly the `i < L`), the drawn
position is strictly less than `L`, and the symbol is inserted at that
position (never appended after the last position). -/
theorem c6_amended_insertion_position_range (message : List Char)
    (h : 1 ≤ message.length) :
    (∀ i : Nat, (randint_ok 0 ((message.length : Int) - 1) (i : Int) = true ↔
      i < message.length)) ∧
    ∀ (prob_ins r : Rat) (i : Nat) (char : Char), r < prob_ins →
      randint_ok 0 ((message.length : Int) - 1) (i : Int) = true →
      mutate_ins prob_ins r i char message = some (message.insertIdx i char) ∧
      (message.insertIdx i char).length = message.length + 1 ∧
      i < message.length := by
  have hrange : ∀ i : Nat, (randint_ok 0 ((message.length : Int) - 1) (i : Int) = true ↔
      i < message.length) := by
    intro i
    rw [randint_ok]
    simp only [Bool.and_eq_true, decide_eq_true_eq]
    omega
  refine ⟨hrange, ?_⟩
  intro prob_ins r i char hr hok
  have hi : i < message.length := (hrange i).mp hok
  refine ⟨?_, List.length_insertIdx i message (by omega), hi⟩
  rw [mutate_ins, if_pos hr, if_neg (by omega)]

/-- C6, amended, witness: inserting at the largest drawable position `1` of
the length-2 message `"AB"`. -/
theorem c6_amended_witness :
    mutate_ins 1 0 1 'X' "AB".toList = some ("AB".toList.insertIdx 1 'X') ∧
    ("AB".toList.insertIdx 1 'X').length = "AB".toList.length + 1 ∧
    1 < "AB".toList.length :=
  (c6_amended_insertion_position_range "AB".toList (by decide)).2 1 0 1 'X'
    (by decide) (by decide)

end EvolveText
